import Mathlib

/-!
Verification of the `iban` Go package (JoinVerse/iban).

Shallow embedding conventions:
* Go strings are modelled as `List Char` (one `Char` per byte/rune; all
  behaviour relevant to the claims is ASCII, where bytes and runes agree).
* Go functions that can panic (out-of-range slicing) are modelled with
  `Option`: `none` is a runtime panic, `some` a normal return.
* Go `error` values are modelled by the inductive `GoError`; a Go
  `(value, error)` pair becomes `value × Option GoError`.
* Go's `%` on `int` truncates toward zero; it is modelled by `goMod`.
* The two source loops (`calculateModulo`, `splitTo4`) are modelled by
  structural recursion on a fuel argument initialised with the string
  length, which strictly bounds the number of iterations of either loop.
-/

namespace Iban

/-- The character class test `'0' <= c <= '9'` used by `strconv.Atoi`,
written on byte values (48 = `'0'`, 57 = `'9'`). -/
def isDigitChar (c : Char) : Bool := 48 ≤ c.toNat && c.toNat ≤ 57

/-- Value of a decimal digit string, most significant digit first
(the numeric reading used by `strconv.Atoi` on an all-digit string). -/
def digitsToNat (l : List Char) : Nat :=
  l.foldl (fun a c => 10 * a + (c.toNat - 48)) 0

/-- Digit characters of `strconv.Atoi`: a non-empty all-digit string parses
to its decimal value, anything else is an error. -/
def parseNatDigits (l : List Char) : Option Nat :=
  if l = [] then none
  else if l.all isDigitChar then some (digitsToNat l) else none

/-- Model of Go `strconv.Atoi`: an optional leading `+` or `-` sign followed
by at least one decimal digit.  (Overflow is not modelled: the program only
calls `Atoi` on strings of at most 9 characters, far below `MaxInt64`.) -/
def goAtoi (l : List Char) : Option Int :=
  match l with
  | [] => none
  | c :: rest =>
    if c = '+' then (parseNatDigits rest).map (fun n => (n : Int))
    else if c = '-' then (parseNatDigits rest).map (fun n => -(n : Int))
    else (parseNatDigits l).map (fun n => (n : Int))

/-- The decimal digit character for `d < 10`. -/
def digitChar (d : Nat) : Char := Char.ofNat (48 + d)

/-- Decimal digits of a positive natural number, most significant first;
fuel-based recursion (`n` itself is always enough fuel). -/
def natDigitsAux (fuel : Nat) (n : Nat) : List Char :=
  match fuel with
  | 0 => []
  | fuel + 1 => if n = 0 then [] else natDigitsAux fuel (n / 10) ++ [digitChar (n % 10)]

/-- Decimal rendering of a natural number, as produced by `strconv.Itoa`. -/
def natToString (n : Nat) : List Char :=
  if n = 0 then ['0'] else natDigitsAux n n

/-- Model of Go `strconv.Itoa` (on `int` values): sign then decimal digits. -/
def goItoa (n : Int) : List Char :=
  if n < 0 then '-' :: natToString n.natAbs else natToString n.natAbs

/-- Model of Go's `%` on `int`, which truncates toward zero (the result has
the sign of the dividend); only used here with positive divisors. -/
def goMod (a b : Int) : Int :=
  if a < 0 then -((-a) % b) else a % b

/-- Loop body of `calculateModulo` (src/iban.go:210-240), structurally
recursive on `fuel`.  Each iteration strictly shortens the string by at
least 6 characters, so `fuel := length` always suffices; with exhausted
fuel the string is empty and `Atoi` would fail, returning `-1` either way. -/
def calcModAux (fuel : Nat) (iban : List Char) : Int :=
  match fuel with
  | 0 => -1
  | fuel + 1 =>
    if 9 < iban.length then
      match goAtoi (iban.take 9) with
      | none => -1
      | some value => calcModAux fuel (goItoa (goMod value 97) ++ iban.drop 9)
    else
      match goAtoi iban with
      | none => -1
      | some value => goMod value 97

/-- Model of `calculateModulo` (src/iban.go:210-240): iterative mod-97
reduction of a (purportedly) decimal string in chunks of up to 9 digits,
returning `-1` when `strconv.Atoi` fails on a chunk. -/
def calculateModulo (iban : List Char) : Int := calcModAux iban.length iban

/-- Whitespace class of Go `strings.TrimSpace` (`unicode.IsSpace`),
restricted to the Latin-1 range; no other code point appears in the claims. -/
def goIsSpace (c : Char) : Bool :=
  c = ' ' || c = '\t' || c = '\n' || c = (Char.ofNat 11) || c = (Char.ofNat 12) ||
  c = '\r' || c = (Char.ofNat 0x85) || c = (Char.ofNat 0xA0)

/-- Leading-whitespace trim, first half of `strings.TrimSpace`. -/
def trimLeft (l : List Char) : List Char := l.dropWhile goIsSpace

/-- Trailing-whitespace trim, second half of `strings.TrimSpace`. -/
def trimRight (l : List Char) : List Char := (l.reverse.dropWhile goIsSpace).reverse

/-- Model of Go `strings.TrimSpace`. -/
def goTrimSpace (l : List Char) : List Char := trimLeft (trimRight l)

/-- Model of `strings.ToUpper` restricted to ASCII letters (every behaviour
the claims exercise is ASCII; non-ASCII characters are left unchanged). -/
def goToUpper (l : List Char) : List Char :=
  l.map (fun c => if 97 ≤ c.toNat && c.toNat ≤ 122 then Char.ofNat (c.toNat - 32) else c)

/-- Model of `removeSpaces` (src/iban.go:242-244): delete every `' '`
(`strings.ReplaceAll(text, " ", "")`). -/
def removeSpaces (text : List Char) : List Char := text.filter (fun c => c ≠ ' ')

/-- Model of Go slicing `l[a:b]`: `none` is the out-of-range panic. -/
def goSlice (l : List Char) (a b : Nat) : Option (List Char) :=
  if a ≤ b ∧ b ≤ l.length then some ((l.drop a).take (b - a)) else none

/-- Model of `splitIbanUp` (src/iban.go:148-153): `iban[0:2]`, `iban[2:4]`,
`iban[4:]`; Go panics on any of the three slices exactly when the string is
shorter than 4 characters. -/
def splitIbanUp (iban : List Char) : Option (List Char × List Char × List Char) :=
  if 4 ≤ iban.length then
    some (iban.take 2, (iban.drop 2).take 2, iban.drop 4)
  else none

/-- Loop body of `splitTo4` (src/iban.go:155-167): while at least 4
characters remain, emit a 4-block and a space; fuel bounds the iterations
(the remainder shrinks by 4 each turn, so `fuel := length` suffices). -/
def splitTo4Aux (fuel : Nat) (value : List Char) : List Char :=
  match fuel with
  | 0 => value
  | fuel + 1 =>
    if 4 ≤ value.length then
      value.take 4 ++ ' ' :: splitTo4Aux fuel (value.drop 4)
    else value

/-- Model of `splitTo4` (src/iban.go:155-167): group into space-separated
blocks of 4 and `strings.TrimSpace` the result. -/
def splitTo4 (value : List Char) : List Char := goTrimSpace (splitTo4Aux value.length value)

/-- Model of `convertCharToNumber` (src/iban.go:191-204): substitute each
byte in `A`..`Z` (65..90) by the decimal rendering of its value minus 55
(`A` ↦ `10`, …, `Z` ↦ `35`); every other byte passes through unchanged. -/
def convertCharToNumber (value : List Char) : List Char :=
  (value.map (fun c =>
    if 65 ≤ c.toNat && c.toNat ≤ 90 then goItoa ((c.toNat : Int) - 55) else [c])).flatten

/-- Model of `rearrangeIBAN` (src/iban.go:206-208). -/
def rearrangeIBAN (countryCode checksum bban : List Char) : List Char :=
  bban ++ countryCode ++ checksum

/-- Errors produced by the package; one constructor per distinct `error`
value built in src/iban.go. -/
inductive GoError
  | invalidIBAN
  | lengthMismatch (passed : Nat) (config : Int)
  | countryNotInList (code : List Char)
  | incorrectString (s : List Char)
  deriving DecidableEq, Repr

/-- Model of the `ibanCountry` struct (src/iban.go:98-106). -/
structure ibanCountry where
  country : List Char
  chars : Int
  bbanFormat : List Char
  code : List Char
  ibanFields : List Char
  comment : List Char
  standardTreatment : Bool
  deriving DecidableEq, Repr

/-- The zero value of `ibanCountry`, what a Go map lookup yields for an
absent key. -/
def zeroCountry : ibanCountry :=
  ⟨[], 0, [], [], [], [], false⟩

/-- Model of the map indexing `countryList[passedCode]`: the entry whose
`code` field matches, or the zero value.  (In the repository's table the
map key always equals the entry's `code` field.) -/
def lookupCountry (cl : List ibanCountry) (code : List Char) : ibanCountry :=
  ((cl.find? (fun e => e.code = code)).getD zeroCountry)

/-- The normalisation both validators apply to their input:
`strings.ToUpper(strings.Replace(iban, " ", "", -1))`. -/
def normalize (s : List Char) : List Char := goToUpper (removeSpaces s)

/-- Model of `IsCorrectIban` (src/iban.go:110-146), parameterised by the
country table (defined in the repository outside src/).  `none` models the
panic inside `splitIbanUp` when the cleaned-up string is shorter than 4. -/
def IsCorrectIban (cl : List ibanCountry) (iban : List Char) (_debug : Bool) :
    Option (Bool × List Char × Option GoError) :=
  if 15 ≤ iban.length then
    let cleaned := normalize iban
    let passedChars := cleaned.length
    match splitIbanUp cleaned with
    | none => none
    | some (passedCode, passedChecksum, passedBban) =>
      let ibanConfig := lookupCountry cl passedCode
      if 0 < ibanConfig.chars then
        if ibanConfig.chars = (passedChars : Int) then
          let convertedIban :=
            convertCharToNumber (rearrangeIBAN passedCode passedChecksum passedBban)
          if calculateModulo convertedIban = 1 then
            some (true, splitTo4 cleaned, none)
          else
            some (false, [], none)
        else
          some (false, [], some (.lengthMismatch passedChars ibanConfig.chars))
      else
        some (false, [], some (.countryNotInList passedCode))
  else
    some (false, [], some (.incorrectString iban))

/-- Model of `GetIbanChecksum` (src/iban.go:170-189): same pipeline with the
checksum forced to `"00"`, gated on raw length strictly greater than 15. -/
def GetIbanChecksum (iban : List Char) : Option (Int × Option GoError) :=
  if 15 < iban.length then
    let cleaned := normalize iban
    match splitIbanUp cleaned with
    | none => none
    | some (passedCode, _passedChecksum, passedBban) =>
      let convertedIban :=
        convertCharToNumber (rearrangeIBAN passedCode ['0', '0'] passedBban)
      some (98 - calculateModulo convertedIban, none)
  else
    some (-1, some (.incorrectString iban))

/-- Model of the `IBAN` struct (src/iban.go:15-24). -/
structure IBAN where
  Number : List Char
  NumberFormated : List Char
  CountryCode : List Char
  Checksum : List Char
  BBAN : List Char
  BankCode : List Char
  SortCode : List Char
  AccountNumber : List Char
  deriving DecidableEq, Repr

/-- The zero value `IBAN{}`. -/
def zeroIBAN : IBAN := ⟨[], [], [], [], [], [], [], []⟩

/-- Model of `strings.Index` for a one-character needle: index of the first
occurrence, `none` standing for Go's `-1`. -/
def firstIdx (l : List Char) (c : Char) : Option Nat := l.findIdx? (fun x => x = c)

/-- Model of `strings.LastIndex` for a one-character needle. -/
def lastIdx (l : List Char) (c : Char) : Option Nat :=
  match l.reverse.findIdx? (fun x => x = c) with
  | none => none
  | some i => some (l.length - 1 - i)

/-- One field extraction of `getBankInfo`: when the marker occurs in the
template, slice `formatted[first:last+1]` (a possible panic) and strip
spaces; when it does not, keep the empty default. -/
def fieldSlice (fields : List Char) (marker : Char) (formatted : List Char) :
    Option (List Char) :=
  match firstIdx fields marker, lastIdx fields marker with
  | some f, some l => (goSlice formatted f (l + 1)).map removeSpaces
  | _, _ => some []

/-- Model of `getBankInfo` (src/iban.go:63-96): find the country entry whose
`code` equals the record's country code and slice the bank, sort and account
fields of the formatted number at the extents of the `b`/`s`/`c` markers. -/
def getBankInfo (cl : List ibanCountry) (iban : IBAN) :
    Option (List Char × List Char × List Char) :=
  match cl.find? (fun e => e.code = iban.CountryCode) with
  | none => some ([], [], [])
  | some entry =>
    match fieldSlice entry.ibanFields 'b' iban.NumberFormated,
          fieldSlice entry.ibanFields 's' iban.NumberFormated,
          fieldSlice entry.ibanFields 'c' iban.NumberFormated with
    | some b, some s, some c => some (b, s, c)
    | _, _, _ => none

/-- Model of `NewIBAN` (src/iban.go:43-61).  The result pairs the returned
record with the returned error, `none` models a propagated panic. -/
def NewIBAN (cl : List ibanCountry) (ibanNumber : List Char) :
    Option (IBAN × Option GoError) :=
  match IsCorrectIban cl ibanNumber false with
  | none => none
  | some (isIBANValid, formatedIBANNumber, err) =>
    if !isIBANValid then some (zeroIBAN, some .invalidIBAN)
    else match err with
    | some e => some (zeroIBAN, some e)
    | none =>
      match splitIbanUp formatedIBANNumber with
      | none => none
      | some (cc, ck, bban) =>
        let base : IBAN :=
          { Number := removeSpaces ibanNumber
            NumberFormated := formatedIBANNumber
            CountryCode := cc
            Checksum := ck
            BBAN := bban
            BankCode := []
            SortCode := []
            AccountNumber := [] }
        match getBankInfo cl base with
        | none => none
        | some (b, s, a) =>
          some ({ base with BankCode := b, SortCode := s, AccountNumber := a }, none)

/-- Model of `IBAN.MarshalText` (src/iban.go:27-29): the compact number and
a nil error. -/
def MarshalText (i : IBAN) : List Char × Option GoError := (i.Number, none)

/-- Model of `IBAN.UnmarshalText` (src/iban.go:32-39): re-run `NewIBAN`; on
error the receiver keeps its previous value, on success it is replaced. -/
def UnmarshalText (cl : List ibanCountry) (prev : IBAN) (text : List Char) :
    Option (IBAN × Option GoError) :=
  match NewIBAN cl text with
  | none => none
  | some (_, some e) => some (prev, some e)
  | some (r, none) => some (r, none)

/-- Modelled from the spec: the repository's country table `countryList` is
defined outside src/ (only src/iban.go, which consumes it, is available).
The spec fixes the behaviour on the fixture countries: Spain (`ES`, total
length 24, bank code at formatted positions 5-8, no sort-code field) and
Luxembourg (`LU`, total length 20, bank code at formatted positions 5-7,
no sort-code field).  Markers: `b` bank code, `s` sort code, `c` account
number, per `getBankInfo`. -/
def modelCountryList : List ibanCountry :=
  [ ⟨"Spain".toList, 24, "4n,4n,1n,1n,10n".toList, "ES".toList,
      "xxxx bbbb xxxx xxxx xxxx xxxx".toList, [], true⟩,
    ⟨"Luxembourg".toList, 20, "3n,13c".toList, "LU".toList,
      "xxxx bbbx xxxx xxxx xxxx".toList, [], true⟩ ]

/-- A character on which `strconv.Atoi` must fail wherever it appears in a
chunk: neither a decimal digit nor a sign character. -/
def badChar (c : Char) : Bool := !(isDigitChar c) && c ≠ '+' && c ≠ '-'

/-! ### Arithmetic facts about digit strings -/

theorem foldl_digitsToNat : ∀ (l : List Char) (a : Nat),
    l.foldl (fun a c => 10 * a + (c.toNat - 48)) a = a * 10 ^ l.length + digitsToNat l
  | [], a => by simp [digitsToNat]
  | c :: t, a => by
    have h1 := foldl_digitsToNat t (10 * a + (c.toNat - 48))
    have h2 := foldl_digitsToNat t (10 * 0 + (c.toNat - 48))
    have e1 : (c :: t).foldl (fun a c => 10 * a + (c.toNat - 48)) a =
        t.foldl (fun a c => 10 * a + (c.toNat - 48)) (10 * a + (c.toNat - 48)) := rfl
    have e2 : digitsToNat (c :: t) =
        t.foldl (fun a c => 10 * a + (c.toNat - 48)) (10 * 0 + (c.toNat - 48)) := rfl
    rw [e1, h1, e2, h2, List.length_cons]
    ring

theorem digitsToNat_append (a b : List Char) :
    digitsToNat (a ++ b) = digitsToNat a * 10 ^ b.length + digitsToNat b := by
  have h : digitsToNat (a ++ b) = b.foldl (fun a c => 10 * a + (c.toNat - 48)) (digitsToNat a) := by
    unfold digitsToNat
    rw [List.foldl_append]
  rw [h, foldl_digitsToNat]

theorem digitsToNat_singleton (c : Char) : digitsToNat [c] = c.toNat - 48 := by
  simp [digitsToNat]

theorem digitChar_toNat {d : Nat} (h : d < 10) : (digitChar d).toNat = 48 + d := by
  interval_cases d <;> decide

theorem isDigitChar_digitChar {d : Nat} (h : d < 10) : isDigitChar (digitChar d) = true := by
  interval_cases d <;> decide

theorem natDigitsAux_all_digits (fuel n : Nat) :
    (natDigitsAux fuel n).all isDigitChar = true := by
  induction fuel generalizing n with
  | zero => rfl
  | succ fuel ih =>
    unfold natDigitsAux
    by_cases h : n = 0
    · simp [h]
    · simp only [h, if_false, List.all_append, ih, Bool.true_and, List.all_cons, List.all_nil]
      simp [isDigitChar_digitChar (Nat.mod_lt n (by norm_num))]

theorem natDigitsAux_digitsToNat (fuel n : Nat) (h : n ≤ fuel) :
    digitsToNat (natDigitsAux fuel n) = n := by
  induction fuel generalizing n with
  | zero =>
    have hn : n = 0 := by omega
    subst hn
    rfl
  | succ fuel ih =>
    unfold natDigitsAux
    by_cases h0 : n = 0
    · simp [h0, digitsToNat]
    · rw [if_neg h0, digitsToNat_append, digitsToNat_singleton,
        digitChar_toNat (Nat.mod_lt n (by norm_num))]
      have hdiv : n / 10 ≤ fuel :=
        Nat.le_of_lt_succ (Nat.lt_of_lt_of_le (Nat.div_lt_self (Nat.pos_of_ne_zero h0) (by norm_num)) h)
      rw [ih _ hdiv]
      simp only [List.length_singleton, pow_one]
      omega

theorem natDigitsAux_length (fuel n k : Nat) (h : n < 10 ^ k) :
    (natDigitsAux fuel n).length ≤ k := by
  induction fuel generalizing n k with
  | zero => simp [natDigitsAux]
  | succ fuel ih =>
    unfold natDigitsAux
    by_cases h0 : n = 0
    · simp [h0]
    · rw [if_neg h0]
      have hk : k ≠ 0 := by
        rintro rfl
        simp at h
        omega
      obtain ⟨k', rfl⟩ := Nat.exists_eq_succ_of_ne_zero hk
      have hdiv : n / 10 < 10 ^ k' := by
        rw [Nat.div_lt_iff_lt_mul (by norm_num)]
        calc n < 10 ^ (k' + 1) := h
        _ = 10 ^ k' * 10 := by ring
      simp only [List.length_append, List.length_cons, List.length_nil]
      have := ih (n / 10) k' hdiv
      omega

theorem natToString_digitsToNat (n : Nat) : digitsToNat (natToString n) = n := by
  unfold natToString
  by_cases h : n = 0
  · simp [h, digitsToNat]
  · rw [if_neg h, natDigitsAux_digitsToNat n n le_rfl]

theorem natToString_all_digits (n : Nat) : (natToString n).all isDigitChar = true := by
  unfold natToString
  by_cases h : n = 0
  · simp [h]
    decide
  · rw [if_neg h]
    exact natDigitsAux_all_digits n n

theorem natToString_ne_nil (n : Nat) : natToString n ≠ [] := by
  unfold natToString
  by_cases h : n = 0
  · simp [h]
  · rw [if_neg h]
    obtain ⟨fuel, rfl⟩ := Nat.exists_eq_succ_of_ne_zero h
    unfold natDigitsAux
    simp [h]

theorem natToString_length_le (n k : Nat) (h : n < 10 ^ k) (hk : 0 < k) :
    (natToString n).length ≤ k := by
  unfold natToString
  by_cases h0 : n = 0
  · simpa [h0] using hk
  · rw [if_neg h0]
    exact natDigitsAux_length n n k h

/-! ### `goAtoi`, `goItoa` and `goMod` facts -/

theorem isDigitChar_ne_plus {c : Char} (h : isDigitChar c = true) : c ≠ '+' := by
  rintro rfl
  simp [isDigitChar] at h

theorem isDigitChar_ne_minus {c : Char} (h : isDigitChar c = true) : c ≠ '-' := by
  rintro rfl
  simp [isDigitChar] at h

theorem parseNatDigits_of_digits {l : List Char} (hne : l ≠ [])
    (hd : l.all isDigitChar = true) : parseNatDigits l = some (digitsToNat l) := by
  unfold parseNatDigits
  rw [if_neg hne, if_pos hd]

theorem goAtoi_of_digits {l : List Char} (hne : l ≠ [])
    (hd : l.all isDigitChar = true) : goAtoi l = some ((digitsToNat l : Int)) := by
  match l, hne with
  | c :: rest, _ =>
    have hc : isDigitChar c = true := by
      simp only [List.all_cons, Bool.and_eq_true] at hd
      exact hd.1
    have e : goAtoi (c :: rest) =
        if c = '+' then (parseNatDigits rest).map (fun n => (n : Int))
        else if c = '-' then (parseNatDigits rest).map (fun n => -(n : Int))
        else (parseNatDigits (c :: rest)).map (fun n => (n : Int)) := rfl
    rw [e, if_neg (isDigitChar_ne_plus hc), if_neg (isDigitChar_ne_minus hc),
      parseNatDigits_of_digits (by simp) hd]
    rfl

theorem goMod_of_nonneg {a : Int} (b : Int) (h : 0 ≤ a) : goMod a b = a % b := by
  unfold goMod
  rw [if_neg (by omega)]

theorem goItoa_of_nonneg {n : Int} (h : 0 ≤ n) : goItoa n = natToString n.natAbs := by
  unfold goItoa
  rw [if_neg (by omega)]

/-! ### C1: `calculateModulo` on pure digit strings -/

theorem calcModAux_digits (fuel : Nat) (l : List Char) (hfuel : l.length ≤ fuel)
    (hne : l ≠ []) (hd : l.all isDigitChar = true) :
    calcModAux fuel l = ((digitsToNat l % 97 : Nat) : Int) := by
  induction fuel generalizing l with
  | zero =>
    exact absurd (List.length_eq_zero.mp (Nat.le_zero.mp hfuel)) hne
  | succ fuel ih =>
    unfold calcModAux
    by_cases hlen : 9 < l.length
    · rw [if_pos hlen]
      have htake_ne : l.take 9 ≠ [] := by
        have : (l.take 9).length = 9 := by
          rw [List.length_take]
          omega
        intro hnil
        rw [hnil] at this
        simp at this
      have htake_d : (l.take 9).all isDigitChar = true := by
        rw [List.all_eq_true] at hd ⊢
        exact fun c hc => hd c (List.mem_of_mem_take hc)
      rw [goAtoi_of_digits htake_ne htake_d]
      dsimp only
      have hmod_nonneg : (0 : Int) ≤ (digitsToNat (l.take 9) : Int) % 97 :=
        Int.emod_nonneg _ (by norm_num)
      rw [goMod_of_nonneg 97 (Int.ofNat_nonneg _),
        goItoa_of_nonneg hmod_nonneg]
      have hcast : ((digitsToNat (l.take 9) : Int) % 97).natAbs = digitsToNat (l.take 9) % 97 := by
        omega
      rw [hcast]
      set r := digitsToNat (l.take 9) % 97 with hr
      have hrlt : r < 97 := Nat.mod_lt _ (by norm_num)
      set l' := natToString r ++ l.drop 9 with hl'
      have hlen' : l'.length ≤ fuel := by
        have h1 : (natToString r).length ≤ 2 :=
          natToString_length_le r 2 (by omega) (by norm_num)
        have h2 : (l.drop 9).length = l.length - 9 := List.length_drop 9 l
        rw [hl', List.length_append]
        omega
      have hne' : l' ≠ [] := by
        rw [hl']
        intro hnil
        exact natToString_ne_nil r (List.append_eq_nil.mp hnil).1
      have hd' : l'.all isDigitChar = true := by
        rw [hl', List.all_append, natToString_all_digits, Bool.true_and]
        rw [List.all_eq_true] at hd ⊢
        exact fun c hc => hd c (List.mem_of_mem_drop hc)
      rw [ih l' hlen' hne' hd']
      congr 1
      rw [hl', digitsToNat_append, natToString_digitsToNat]
      conv_rhs => rw [← List.take_append_drop 9 l, digitsToNat_append]
      exact ((Nat.mod_modEq (digitsToNat (l.take 9)) 97).mul_right _).add_right _
    · rw [if_neg hlen, goAtoi_of_digits hne hd]
      dsimp only
      rw [goMod_of_nonneg 97 (Int.ofNat_nonneg _)]
      omega

/-- C1: on every non-empty string of ASCII decimal digits, `calculateModulo`
returns the value of the digit string modulo 97, the chunked reduction being
exact. -/
theorem c1_calculateModulo_digits (l : List Char) (hne : l ≠ [])
    (hd : ∀ c ∈ l, isDigitChar c = true) :
    calculateModulo l = ((digitsToNat l % 97 : Nat) : Int) :=
  calcModAux_digits l.length l le_rfl hne (List.all_eq_true.mpr hd)

/-- Witness for C1 at the concrete digit string `1234567890123`. -/
theorem c1_witness :
    calculateModulo "1234567890123".toList = ((digitsToNat "1234567890123".toList % 97 : Nat) : Int) :=
  c1_calculateModulo_digits _ (by decide) (by decide)

/-! ### C2: inputs that pass the raw-length gate but normalise below 4
characters make `splitIbanUp` slice out of range -/

/-- C2: contrary to the no-crash claim, a 15-space input passes
`IsCorrectIban`'s raw-length gate, normalises to the empty string, and the
slice `iban[0:2]` in `splitIbanUp` panics (modelled as `none`); the same
happens in `NewIBAN` and, with 16 spaces, in `GetIbanChecksum`. -/
theorem c2_splitIbanUp_panics :
    IsCorrectIban modelCountryList (List.replicate 15 ' ') false = none ∧
    NewIBAN modelCountryList (List.replicate 15 ' ') = none ∧
    GetIbanChecksum (List.replicate 16 ' ') = none := by
  decide

/-! ### C4: the two raw-length thresholds -/

/-- C4: `IsCorrectIban` rejects every raw input shorter than 15 characters
with the structural `incorect IBAN string` error, and `GetIbanChecksum`
returns an error exactly when the raw input has at most 15 characters; both
thresholds are applied to the raw, un-normalised input. -/
theorem c4_raw_length_gates :
    (∀ (cl : List ibanCountry) (s : List Char) (d : Bool), s.length < 15 →
      IsCorrectIban cl s d = some (false, [], some (.incorrectString s))) ∧
    (∀ s : List Char, (∃ n e, GetIbanChecksum s = some (n, some e)) ↔ s.length ≤ 15) := by
  constructor
  · intro cl s d h
    unfold IsCorrectIban
    rw [if_neg (by omega)]
  · intro s
    constructor
    · rintro ⟨n, e, h⟩
      by_contra hlen
      push_neg at hlen
      unfold GetIbanChecksum at h
      rw [if_pos hlen] at h
      try dsimp only at h
      rcases hsp : splitIbanUp (normalize s) with _ | ⟨cc, ck, bb⟩ <;>
        rw [hsp] at h <;> simp at h
    · intro hle
      unfold GetIbanChecksum
      rw [if_neg (by omega)]
      exact ⟨-1, .incorrectString s, rfl⟩

/-- Witness for C4 at the 4-character input `LU28`. -/
theorem c4_witness :
    IsCorrectIban modelCountryList "LU28".toList false =
      some (false, [], some (.incorrectString "LU28".toList)) ∧
    (∃ n e, GetIbanChecksum "LU28".toList = some (n, some e)) :=
  ⟨c4_raw_length_gates.1 modelCountryList "LU28".toList false (by decide),
   (c4_raw_length_gates.2 "LU28".toList).mpr (by decide)⟩

/-! ### C5: checksum failure is a silent false, errors are structural -/

/-- C5: when the raw-length gate, country lookup and configured-length check
all pass but the mod-97 remainder differs from 1, `IsCorrectIban` returns
validity `false`, the empty formatted string and a nil error; conversely a
non-nil error is only ever returned for one of the three structural
problems (raw input too short, unknown country, configured-length
mismatch). -/
theorem c5_checksum_silent_false :
    (∀ (cl : List ibanCountry) (s cc ck bb : List Char), 15 ≤ s.length →
      splitIbanUp (normalize s) = some (cc, ck, bb) →
      0 < (lookupCountry cl cc).chars →
      (lookupCountry cl cc).chars = ((normalize s).length : Int) →
      calculateModulo (convertCharToNumber (rearrangeIBAN cc ck bb)) ≠ 1 →
      IsCorrectIban cl s false = some (false, [], none)) ∧
    (∀ (cl : List ibanCountry) (s f : List Char) (v : Bool) (e : GoError),
      IsCorrectIban cl s false = some (v, f, some e) →
      s.length < 15 ∨
      ¬ 0 < (lookupCountry cl ((normalize s).take 2)).chars ∨
      (lookupCountry cl ((normalize s).take 2)).chars ≠ ((normalize s).length : Int)) := by
  constructor
  · intro cl s cc ck bb h15 hsp hchars hlen hmod
    unfold IsCorrectIban
    rw [if_pos h15]
    dsimp only
    rw [hsp]
    dsimp only
    rw [if_pos hchars, if_pos hlen, if_neg hmod]
  · intro cl s f v e h
    by_cases h15 : 15 ≤ s.length
    · right
      unfold IsCorrectIban at h
      rw [if_pos h15] at h
      try dsimp only at h
      rcases hsp : splitIbanUp (normalize s) with _ | ⟨cc, ck, bb⟩
      · rw [hsp] at h
        exact absurd h (by simp)
      · have hcc : cc = (normalize s).take 2 := by
          unfold splitIbanUp at hsp
          split at hsp
          · simp only [Option.some.injEq, Prod.mk.injEq] at hsp
            exact hsp.1.symm
          · exact absurd hsp (by simp)
        rw [hsp] at h
        try dsimp only at h
        subst hcc
        split_ifs at h with h1 h2 h3
        · simp at h
        · simp at h
        · right
          intro hEq
          exact h2 hEq
        · left
          exact h1
    · left
      omega

/-- Witness for C5: the known bad-checksum fixture and an unknown-country
input. -/
theorem c5_witness :
    IsCorrectIban modelCountryList "LU12 3456 7890 1234 5678".toList false =
      some (false, [], none) ∧
    (("ZZ121000418450200051332".toList).length < 15 ∨
      ¬ 0 < (lookupCountry modelCountryList
        ((normalize "ZZ121000418450200051332".toList).take 2)).chars ∨
      (lookupCountry modelCountryList
        ((normalize "ZZ121000418450200051332".toList).take 2)).chars ≠
        ((normalize "ZZ121000418450200051332".toList).length : Int)) :=
  ⟨c5_checksum_silent_false.1 modelCountryList "LU12 3456 7890 1234 5678".toList
      "LU".toList "12".toList "3456789012345678".toList
      (by decide) (by decide) (by decide) (by decide) (by decide),
   c5_checksum_silent_false.2 modelCountryList "ZZ121000418450200051332".toList
      [] false (.countryNotInList "ZZ".toList) (by decide)⟩

/-! ### C10: the sign-character escape from the `-1` error path -/

/-- C10 counterexample: the input `AB12+23456789012` has raw length 16 and
its normalised form contains `+`, which is neither a digit nor `A`-`Z`, yet
`GetIbanChecksum` returns 12, not 99: the `+` lands at the start of the
first 9-character chunk, where `strconv.Atoi` accepts it as a sign. -/
theorem c10_counterexample :
    15 < ("AB12+23456789012".toList).length ∧
    '+' ∈ normalize "AB12+23456789012".toList ∧
    isDigitChar '+' = false ∧ ¬ (65 ≤ '+'.toNat ∧ '+'.toNat ≤ 90) ∧
    GetIbanChecksum "AB12+23456789012".toList = some (12, none) ∧ (12 : Int) ≠ 99 := by
  decide

/-- C10 amended: for every input of raw length greater than 15 whose
normalised form still splits (length at least 4) and on which
`calculateModulo` applied to the substituted rearranged string returns `-1`,
`GetIbanChecksum` returns the out-of-range value 99 with a nil error. -/
theorem c10_amended_returns_99 (s cc ck bb : List Char) (h15 : 15 < s.length)
    (hsp : splitIbanUp (normalize s) = some (cc, ck, bb))
    (hmod : calculateModulo (convertCharToNumber (rearrangeIBAN cc ['0', '0'] bb)) = -1) :
    GetIbanChecksum s = some (99, none) := by
  unfold GetIbanChecksum
  rw [if_pos h15]
  dsimp only
  rw [hsp]
  dsimp only
  rw [hmod]
  rfl

/-- Witness for the amended C10 at `AB12?3456789012345`. -/
theorem c10_witness :
    GetIbanChecksum "AB12?3456789012345".toList = some (99, none) :=
  c10_amended_returns_99 "AB12?3456789012345".toList
    "AB".toList "12".toList "?3456789012345".toList
    (by decide) (by decide) (by decide)

/-! ### Inversion of the validator's success path -/

theorem splitIbanUp_eq_some {iban cc ck bb : List Char}
    (h : splitIbanUp iban = some (cc, ck, bb)) :
    4 ≤ iban.length ∧ cc = iban.take 2 ∧ ck = (iban.drop 2).take 2 ∧ bb = iban.drop 4 := by
  unfold splitIbanUp at h
  split_ifs at h with h4
  · simp only [Option.some.injEq, Prod.mk.injEq] at h
    exact ⟨h4, h.1.symm, h.2.1.symm, h.2.2.symm⟩

theorem isCorrectIban_true_inv (cl : List ibanCountry) (s f : List Char) (e : Option GoError)
    (h : IsCorrectIban cl s false = some (true, f, e)) :
    15 ≤ s.length ∧ e = none ∧ f = splitTo4 (normalize s) ∧
    ∃ cc ck bb, splitIbanUp (normalize s) = some (cc, ck, bb) ∧
      0 < (lookupCountry cl cc).chars ∧
      (lookupCountry cl cc).chars = (((normalize s).length : Nat) : Int) ∧
      calculateModulo (convertCharToNumber (rearrangeIBAN cc ck bb)) = 1 := by
  by_cases h15 : 15 ≤ s.length
  · unfold IsCorrectIban at h
    rw [if_pos h15] at h
    try dsimp only at h
    rcases hsp : splitIbanUp (normalize s) with _ | ⟨cc, ck, bb⟩
    · rw [hsp] at h
      exact absurd h (by simp)
    · rw [hsp] at h
      try dsimp only at h
      split_ifs at h with h1 h2 h3
      · simp only [Option.some.injEq, Prod.mk.injEq] at h
        exact ⟨h15, h.2.2.symm, h.2.1.symm, cc, ck, bb, rfl, h1, h2, h3⟩
      all_goals simp at h
  · unfold IsCorrectIban at h
    rw [if_neg h15] at h
    simp at h

theorem isCorrectIban_valid_run (cl : List ibanCountry) (s cc ck bb : List Char)
    (h15 : 15 ≤ s.length) (hsp : splitIbanUp (normalize s) = some (cc, ck, bb))
    (h1 : 0 < (lookupCountry cl cc).chars)
    (h2 : (lookupCountry cl cc).chars = (((normalize s).length : Nat) : Int))
    (h3 : calculateModulo (convertCharToNumber (rearrangeIBAN cc ck bb)) = 1) :
    IsCorrectIban cl s false = some (true, splitTo4 (normalize s), none) := by
  unfold IsCorrectIban
  rw [if_pos h15]
  dsimp only
  rw [hsp]
  dsimp only
  rw [if_pos h1, if_pos h2, if_pos h3]

theorem newIBAN_ok_inv (cl : List ibanCountry) (s : List Char) (r : IBAN)
    (h : NewIBAN cl s = some (r, none)) :
    ∃ f b so a, IsCorrectIban cl s false = some (true, f, none) ∧
      4 ≤ f.length ∧
      getBankInfo cl
        { Number := removeSpaces s, NumberFormated := f, CountryCode := f.take 2,
          Checksum := (f.drop 2).take 2, BBAN := f.drop 4,
          BankCode := [], SortCode := [], AccountNumber := [] } = some (b, so, a) ∧
      r = { Number := removeSpaces s, NumberFormated := f, CountryCode := f.take 2,
            Checksum := (f.drop 2).take 2, BBAN := f.drop 4,
            BankCode := b, SortCode := so, AccountNumber := a } := by
  unfold NewIBAN at h
  rcases hic : IsCorrectIban cl s false with _ | ⟨v, f, er⟩
  · rw [hic] at h
    exact absurd h (by simp)
  · rw [hic] at h
    cases v
    · try dsimp only at h
      rw [if_pos (by decide)] at h
      simp at h
    · have her : er = none := (isCorrectIban_true_inv cl s f er hic).2.1
      subst her
      try dsimp only at h
      rw [if_neg (by decide)] at h
      try dsimp only at h
      rcases hsp : splitIbanUp f with _ | ⟨cc, ck, bb⟩
      · rw [hsp] at h
        exact absurd h (by simp)
      · obtain ⟨h4, hcc, hck, hbb⟩ := splitIbanUp_eq_some hsp
        subst hcc hck hbb
        rw [hsp] at h
        try dsimp only at h
        rcases hgb : getBankInfo cl
            { Number := removeSpaces s, NumberFormated := f, CountryCode := f.take 2,
              Checksum := (f.drop 2).take 2, BBAN := f.drop 4,
              BankCode := [], SortCode := [], AccountNumber := [] } with _ | ⟨b, so, a⟩
        · rw [hgb] at h
          exact absurd h (by simp)
        · rw [hgb] at h
          simp only [Option.some.injEq, Prod.mk.injEq] at h
          exact ⟨f, b, so, a, rfl, h4, hgb, h.1.symm⟩

/-! ### C9: the sentinel error is the only error `NewIBAN` can return -/

/-- C9: `IsCorrectIban` never reports validity together with a non-nil
error, so whenever `NewIBAN` fails it returns exactly the zero record and
the sentinel `ErrInvalidIBAN`; its branch forwarding `IsCorrectIban`'s
descriptive error is unreachable. -/
theorem c9_sentinel_only (cl : List ibanCountry) (s : List Char) :
    (∀ f e, IsCorrectIban cl s false = some (true, f, e) → e = none) ∧
    (∀ r e, NewIBAN cl s = some (r, some e) → r = zeroIBAN ∧ e = GoError.invalidIBAN) := by
  constructor
  · intro f e h
    exact (isCorrectIban_true_inv cl s f e h).2.1
  · intro r e h
    unfold NewIBAN at h
    rcases hic : IsCorrectIban cl s false with _ | ⟨v, f, er⟩
    · rw [hic] at h
      exact absurd h (by simp)
    · rw [hic] at h
      cases v
      · try dsimp only at h
        rw [if_pos (by decide)] at h
        simp only [Option.some.injEq, Prod.mk.injEq, Option.some.injEq] at h
        exact ⟨h.1.symm, h.2.symm⟩
      · have her : er = none := (isCorrectIban_true_inv cl s f er hic).2.1
        subst her
        try dsimp only at h
        rw [if_neg (by decide)] at h
        try dsimp only at h
        rcases hsp : splitIbanUp f with _ | ⟨cc, ck, bb⟩ <;> rw [hsp] at h
        · simp at h
        · try dsimp only at h
          split at h
          · simp at h
          · simp at h

/-- Witness for C9 at the bad-checksum fixture `LU12 3456 7890 1234 5678`
(failure side) and the valid fixture `ES9121000418450200051332` (success
side). -/
theorem c9_witness :
    ((none : Option GoError) = none) ∧
    (zeroIBAN = zeroIBAN ∧ GoError.invalidIBAN = GoError.invalidIBAN) :=
  ⟨(c9_sentinel_only modelCountryList "ES9121000418450200051332".toList).1
      "ES91 2100 0418 4502 0005 1332".toList none (by decide),
   (c9_sentinel_only modelCountryList "LU12 3456 7890 1234 5678".toList).2
      zeroIBAN GoError.invalidIBAN (by decide)⟩

/-! ### Structure of `splitTo4` and the trimming functions -/

theorem splitTo4Aux_nil (fuel : Nat) : splitTo4Aux fuel [] = [] := by
  cases fuel <;> rfl

theorem splitTo4Aux_succ (fuel : Nat) (v : List Char) :
    splitTo4Aux (fuel + 1) v =
      if 4 ≤ v.length then v.take 4 ++ ' ' :: splitTo4Aux fuel (v.drop 4) else v := rfl

theorem removeSpaces_append (a b : List Char) :
    removeSpaces (a ++ b) = removeSpaces a ++ removeSpaces b := by
  simp [removeSpaces, List.filter_append]

theorem removeSpaces_cons_space (l : List Char) :
    removeSpaces (' ' :: l) = removeSpaces l := by
  simp [removeSpaces]

theorem splitTo4Aux_ne_nil (fuel : Nat) (v : List Char) (h : v ≠ []) :
    splitTo4Aux fuel v ≠ [] := by
  cases fuel with
  | zero => exact h
  | succ fuel =>
    unfold splitTo4Aux
    split_ifs with h4
    · simp
    · exact h

theorem removeSpaces_splitTo4Aux (fuel : Nat) :
    ∀ v : List Char, removeSpaces (splitTo4Aux fuel v) = removeSpaces v := by
  induction fuel with
  | zero => intro v; rfl
  | succ fuel ih =>
    intro v
    rw [splitTo4Aux_succ]
    split_ifs with h4
    · rw [removeSpaces_append, removeSpaces_cons_space, ih,
        ← removeSpaces_append, List.take_append_drop]
    · rfl

theorem splitTo4Aux_head? (fuel : Nat) :
    ∀ v : List Char, v ≠ [] → (splitTo4Aux fuel v).head? = v.head? := by
  induction fuel with
  | zero => intro v _; rfl
  | succ fuel ih =>
    intro v hv
    unfold splitTo4Aux
    split_ifs with h4
    · cases v with
      | nil => exact absurd rfl hv
      | cons a t =>
        rw [List.take_succ_cons, List.cons_append]
        rfl
    · rfl

theorem trimRight_append (A B : List Char) :
    trimRight (A ++ B) = if trimRight B = [] then trimRight A else A ++ trimRight B := by
  by_cases hB : trimRight B = []
  · rw [if_pos hB]
    have hB' : B.reverse.dropWhile goIsSpace = [] := by
      unfold trimRight at hB
      exact List.reverse_eq_nil_iff.mp hB
    unfold trimRight
    rw [List.reverse_append, List.dropWhile_append, if_pos (by simp [hB'])]
  · rw [if_neg hB]
    have hB' : B.reverse.dropWhile goIsSpace ≠ [] := by
      intro h0
      apply hB
      unfold trimRight
      rw [h0]
      rfl
    unfold trimRight
    rw [List.reverse_append, List.dropWhile_append,
      if_neg (by simpa [List.isEmpty_iff] using hB'), List.reverse_append,
      List.reverse_reverse]

theorem trimRight_singleton_nonspace {c : Char} (h : goIsSpace c = false) :
    trimRight [c] = [c] := by
  unfold trimRight
  rw [List.reverse_singleton, List.dropWhile_cons, if_neg (by simp [h])]
  rfl

theorem trimRight_eq_self {l : List Char}
    (hlast : ∀ a, l.getLast? = some a → goIsSpace a = false) : trimRight l = l := by
  unfold trimRight
  cases hr : l.reverse with
  | nil =>
    have : l = [] := List.reverse_eq_nil_iff.mp hr
    subst this
    rfl
  | cons b t =>
    have hb : l.getLast? = some b := by
      rw [← List.head?_reverse, hr]
      rfl
    rw [List.dropWhile_cons, if_neg (by simp [hlast b hb]), ← hr, List.reverse_reverse]

theorem trimRight_cons_nonspace {c : Char} (l : List Char) (h : goIsSpace c = false) :
    trimRight (c :: l) = c :: trimRight l := by
  have happ := trimRight_append [c] l
  rw [List.singleton_append] at happ
  by_cases h0 : trimRight l = []
  · rw [if_pos h0] at happ
    rw [happ, h0, trimRight_singleton_nonspace h]
  · rw [if_neg h0] at happ
    rw [happ, List.singleton_append]

theorem trimLeft_cons_nonspace {c : Char} (l : List Char) (h : goIsSpace c = false) :
    trimLeft (c :: l) = c :: l := by
  unfold trimLeft
  rw [List.dropWhile_cons, if_neg (by simp [h])]

theorem trimRight_concat_space (l : List Char) : trimRight (l ++ [' ']) = trimRight l := by
  unfold trimRight
  rw [List.reverse_append]
  have hsp : goIsSpace ' ' = true := by decide
  simp [List.dropWhile_cons, hsp]

/-- The trailing-space structure of the `splitTo4` loop body: on a value
whose last character is not whitespace, trimming the right end of the
grouped string removes at most the one space the loop appends after a final
full block. -/
theorem trimRight_splitTo4Aux (fuel : Nat) :
    ∀ v : List Char, v ≠ [] → (∀ a, v.getLast? = some a → goIsSpace a = false) →
    trimRight (splitTo4Aux fuel v) = splitTo4Aux fuel v ∨
    splitTo4Aux fuel v = trimRight (splitTo4Aux fuel v) ++ [' '] := by
  induction fuel with
  | zero =>
    intro v _ hlast
    exact Or.inl (trimRight_eq_self hlast)
  | succ fuel ih =>
    intro v hne hlast
    by_cases h4 : 4 ≤ v.length
    · have he : splitTo4Aux (fuel + 1) v =
          v.take 4 ++ ' ' :: splitTo4Aux fuel (v.drop 4) := by
        rw [splitTo4Aux_succ, if_pos h4]
      by_cases hd : v.drop 4 = []
      · have hv4 : v.take 4 = v := by
          apply List.take_of_length_le
          have := List.length_drop 4 v
          rw [hd] at this
          simp at this
          omega
        rw [he, hd, splitTo4Aux_nil, hv4]
        right
        rw [show v ++ ' ' :: ([] : List Char) = v ++ [' '] from rfl,
          trimRight_concat_space, trimRight_eq_self hlast]
      · have hlast' : ∀ a, (v.drop 4).getLast? = some a → goIsSpace a = false := by
          intro a ha
          apply hlast
          rw [← ha]
          conv_lhs => rw [← List.take_append_drop 4 v]
          exact List.getLast?_append_of_ne_nil _ hd
        have ihd := ih (v.drop 4) hd hlast'
        have hA'ne : splitTo4Aux fuel (v.drop 4) ≠ [] := splitTo4Aux_ne_nil fuel _ hd
        set A' := splitTo4Aux fuel (v.drop 4) with hA'
        have hTRne : trimRight A' ≠ [] := by
          rcases ihd with hcase | hcase
          · rw [hcase]
            exact hA'ne
          · intro h0
            rw [h0, List.nil_append] at hcase
            have hrs : removeSpaces A' = removeSpaces (v.drop 4) :=
              removeSpaces_splitTo4Aux fuel (v.drop 4)
            rw [hcase] at hrs
            obtain ⟨a, ha⟩ : ∃ a, (v.drop 4).getLast? = some a := by
              cases hdrop : (v.drop 4).getLast? with
              | none => exact absurd (List.getLast?_eq_none_iff.mp hdrop) hd
              | some a => exact ⟨a, rfl⟩
            have hmem : a ∈ v.drop 4 := List.mem_of_mem_getLast? (by rw [ha]; rfl)
            have han : a ≠ ' ' := by
              intro h''
              have := hlast' a ha
              rw [h''] at this
              exact absurd this (by decide)
            have : a ∈ removeSpaces (v.drop 4) := by
              unfold removeSpaces
              exact List.mem_filter.mpr ⟨hmem, by simp [han]⟩
            rw [← hrs] at this
            simp [removeSpaces] at this
        have h1 : trimRight (' ' :: A') = ' ' :: trimRight A' := by
          have := trimRight_append [' '] A'
          rw [if_neg hTRne, List.singleton_append, List.singleton_append] at this
          exact this
        have h2 : trimRight (v.take 4 ++ ' ' :: A') = v.take 4 ++ ' ' :: trimRight A' := by
          have := trimRight_append (v.take 4) (' ' :: A')
          simp only [h1] at this
          rw [if_neg (by simp)] at this
          exact this
        rcases ihd with hcase | hcase
        · left
          rw [he, h2, hcase]
        · right
          rw [he, h2]
          conv_lhs => rw [hcase]
          simp
    · have he : splitTo4Aux (fuel + 1) v = v := by
        rw [splitTo4Aux_succ, if_neg h4]
      rw [he]
      exact Or.inl (trimRight_eq_self hlast)

/-! ### C7: the 4-grouping is lossless up to whitespace at the ends -/

/-- C7 counterexample: a single tab is space-free, but `splitTo4` ends with
`strings.TrimSpace`, which deletes the tab, so removing spaces from the
grouped string does not give the tab back. -/
theorem c7_counterexample :
    (∀ x ∈ ['\t'], x ≠ ' ') ∧ removeSpaces (splitTo4 ['\t']) ≠ ['\t'] := by
  decide

/-- C7 amended: for every string that contains no space character and whose
first and last characters are not whitespace either, removing the spaces
from the 4-grouped string recovers the string exactly. -/
theorem c7_amended_roundtrip (c : List Char) (hsp : ∀ x ∈ c, x ≠ ' ')
    (hhead : ∀ a, c.head? = some a → goIsSpace a = false)
    (hlast : ∀ a, c.getLast? = some a → goIsSpace a = false) :
    removeSpaces (splitTo4 c) = c := by
  rcases eq_or_ne c [] with rfl | hne
  · rfl
  · have hrs : removeSpaces (splitTo4Aux c.length c) = removeSpaces c :=
      removeSpaces_splitTo4Aux c.length c
    have hrsc : removeSpaces c = c := by
      unfold removeSpaces
      rw [List.filter_eq_self]
      intro a ha
      simp [hsp a ha]
    obtain ⟨a, hah⟩ : ∃ a, c.head? = some a := by
      cases c with
      | nil => exact absurd rfl hne
      | cons x t => exact ⟨x, rfl⟩
    have haw : goIsSpace a = false := hhead a hah
    have hXhead : (splitTo4Aux c.length c).head? = some a := by
      rw [splitTo4Aux_head? c.length c hne, hah]
    unfold splitTo4 goTrimSpace
    rcases trimRight_splitTo4Aux c.length c hne hlast with hTR | hTR
    · rw [hTR]
      obtain ⟨t, hXeq⟩ : ∃ t, splitTo4Aux c.length c = a :: t := by
        cases hX : splitTo4Aux c.length c with
        | nil => rw [hX] at hXhead; exact absurd hXhead (by simp)
        | cons x t =>
          rw [hX] at hXhead
          simp only [List.head?_cons, Option.some.injEq] at hXhead
          exact ⟨t, by rw [hXhead]⟩
      rw [hXeq, trimLeft_cons_nonspace t haw, ← hXeq, hrs, hrsc]
    · cases hTRX : trimRight (splitTo4Aux c.length c) with
      | nil =>
        rw [hTRX, List.nil_append] at hTR
        rw [hTR] at hXhead
        simp only [List.head?_cons, Option.some.injEq] at hXhead
        rw [← hXhead] at haw
        exact absurd haw (by decide)
      | cons b r =>
        have hX' : splitTo4Aux c.length c = b :: (r ++ [' ']) := by
          rw [hTR, hTRX]
          rfl
        have hb : b = a := by
          rw [hX'] at hXhead
          simp only [List.head?_cons, Option.some.injEq] at hXhead
          exact hXhead
        rw [trimLeft_cons_nonspace r (hb ▸ haw)]
        have key : removeSpaces (b :: r) = removeSpaces (splitTo4Aux c.length c) := by
          rw [hX', show b :: (r ++ [' ']) = (b :: r) ++ [' '] from rfl,
            removeSpaces_append]
          simp [removeSpaces]
        rw [key, hrs, hrsc]

/-- Witness for the amended C7 at the canonical Luxembourg fixture. -/
theorem c7_witness :
    removeSpaces (splitTo4 "LU280019400644750000".toList) = "LU280019400644750000".toList :=
  c7_amended_roundtrip _ (by decide) (by decide) (by decide)

/-! ### Characters a successful mod-97 run can contain -/

theorem badChar_spec {c : Char} (hb : badChar c = true) :
    isDigitChar c = false ∧ c ≠ '+' ∧ c ≠ '-' := by
  unfold badChar at hb
  simp only [Bool.and_eq_true, Bool.not_eq_true', decide_eq_true_eq] at hb
  exact ⟨hb.1.1, hb.1.2, hb.2⟩

theorem parseNatDigits_of_bad {l : List Char} {c : Char} (hc : c ∈ l)
    (hb : badChar c = true) : parseNatDigits l = none := by
  have hne : l ≠ [] := by rintro rfl; simp at hc
  have hall : ¬ (l.all isDigitChar = true) := by
    intro hall
    rw [List.all_eq_true] at hall
    have h2 := hall c hc
    rw [(badChar_spec hb).1] at h2
    exact absurd h2 (by simp)
  unfold parseNatDigits
  rw [if_neg hne, if_neg hall]

theorem goAtoi_of_bad {l : List Char} {c : Char} (hc : c ∈ l)
    (hb : badChar c = true) : goAtoi l = none := by
  obtain ⟨_, hplus, hminus⟩ := badChar_spec hb
  cases l with
  | nil => simp at hc
  | cons c0 rest =>
    have e : goAtoi (c0 :: rest) =
        if c0 = '+' then (parseNatDigits rest).map (fun n => (n : Int))
        else if c0 = '-' then (parseNatDigits rest).map (fun n => -(n : Int))
        else (parseNatDigits (c0 :: rest)).map (fun n => (n : Int)) := rfl
    rw [e]
    rcases List.mem_cons.mp hc with rfl | hmem
    · rw [if_neg hplus, if_neg hminus, parseNatDigits_of_bad hc hb]
      rfl
    · split_ifs with h1 h2
      · rw [parseNatDigits_of_bad hmem hb]
        rfl
      · rw [parseNatDigits_of_bad hmem hb]
        rfl
      · rw [parseNatDigits_of_bad (List.mem_cons_of_mem c0 hmem) hb]
        rfl

theorem calcModAux_succ (fuel : Nat) (l : List Char) :
    calcModAux (fuel + 1) l =
      if 9 < l.length then
        match goAtoi (l.take 9) with
        | none => -1
        | some value => calcModAux fuel (goItoa (goMod value 97) ++ l.drop 9)
      else
        match goAtoi l with
        | none => -1
        | some value => goMod value 97 := rfl

theorem calcModAux_of_bad (fuel : Nat) :
    ∀ (l : List Char) (c : Char), c ∈ l → badChar c = true → calcModAux fuel l = -1 := by
  induction fuel with
  | zero => intro l c _ _; rfl
  | succ fuel ih =>
    intro l c hc hb
    rw [calcModAux_succ]
    split_ifs with h9
    · have hsplit : c ∈ l.take 9 ∨ c ∈ l.drop 9 := by
        rw [← List.mem_append, List.take_append_drop]
        exact hc
      rcases hsplit with htk | hdr
      · rw [goAtoi_of_bad htk hb]
      · cases hA : goAtoi (l.take 9) with
        | none => rfl
        | some v =>
          exact ih _ c (List.mem_append_right _ hdr) hb
    · rw [goAtoi_of_bad hc hb]

theorem calculateModulo_no_bad {l : List Char} (h : calculateModulo l ≠ -1) :
    ∀ c ∈ l, badChar c = false := by
  intro c hc
  by_contra hb
  rw [Bool.not_eq_false] at hb
  exact h (calcModAux_of_bad l.length l c hc hb)

theorem goIsSpace_false_of_range {x : Char} (h43 : 43 ≤ x.toNat) (h90 : x.toNat ≤ 90) :
    goIsSpace x = false := by
  have h1 : x ≠ ' ' := by rintro rfl; exact absurd h43 (by decide)
  have h2 : x ≠ '\t' := by rintro rfl; exact absurd h43 (by decide)
  have h3 : x ≠ '\n' := by rintro rfl; exact absurd h43 (by decide)
  have h4 : x ≠ Char.ofNat 11 := by rintro rfl; exact absurd h43 (by decide)
  have h5 : x ≠ Char.ofNat 12 := by rintro rfl; exact absurd h43 (by decide)
  have h6 : x ≠ '\r' := by rintro rfl; exact absurd h43 (by decide)
  have h7 : x ≠ Char.ofNat 0x85 := by rintro rfl; exact absurd h90 (by decide)
  have h8 : x ≠ Char.ofNat 0xA0 := by rintro rfl; exact absurd h90 (by decide)
  unfold goIsSpace
  simp [h1, h2, h3, h4, h5, h6, h7, h8]

/-- On the success path of the validator (mod-97 result 1), the normalised
string contains no whitespace at all: every character must survive as a
digit, a letter `A`-`Z`, or a sign character inside some `Atoi` chunk. -/
theorem normalize_chars_nonspace {n cc ck bb : List Char}
    (hsp : splitIbanUp n = some (cc, ck, bb))
    (hmod : calculateModulo (convertCharToNumber (rearrangeIBAN cc ck bb)) = 1) :
    ∀ x ∈ n, goIsSpace x = false := by
  obtain ⟨h4, hcc, hck, hbb⟩ := splitIbanUp_eq_some hsp
  intro x hx
  have hxr : x ∈ rearrangeIBAN cc ck bb := by
    subst hcc hck hbb
    unfold rearrangeIBAN
    have hx' : x ∈ n.take 4 ∨ x ∈ n.drop 4 := by
      rw [← List.mem_append, List.take_append_drop]
      exact hx
    rcases hx' with h | h
    · have h24 : n.take 4 = n.take 2 ++ (n.drop 2).take 2 := List.take_add n 2 2
      rw [h24] at h
      rcases List.mem_append.mp h with h | h
      · exact List.mem_append_left _ (List.mem_append_right _ h)
      · exact List.mem_append_right _ h
    · exact List.mem_append_left _ (List.mem_append_left _ h)
  by_cases hAZ : (65 ≤ x.toNat && x.toNat ≤ 90) = true
  · simp only [Bool.and_eq_true, decide_eq_true_eq] at hAZ
    exact goIsSpace_false_of_range (by omega) hAZ.2
  · have hxc : x ∈ convertCharToNumber (rearrangeIBAN cc ck bb) := by
      unfold convertCharToNumber
      apply List.mem_flatten.mpr
      refine ⟨[x], List.mem_map.mpr ⟨x, hxr, ?_⟩, List.mem_singleton.mpr rfl⟩
      rw [if_neg hAZ]
    have hnb : badChar x = false :=
      calculateModulo_no_bad (by rw [hmod]; decide) x hxc
    have hcases : isDigitChar x = true ∨ x = '+' ∨ x = '-' := by
      by_contra hcon
      push_neg at hcon
      have hd0 : isDigitChar x = false := Bool.eq_false_iff.mpr hcon.1
      have hbx : badChar x = true := by
        unfold badChar
        simp [hd0, hcon.2.1, hcon.2.2]
      rw [hbx] at hnb
      exact absurd hnb (by simp)
    rcases hcases with hd | rfl | rfl
    · have hrange : 48 ≤ x.toNat ∧ x.toNat ≤ 57 := by
        simpa [isDigitChar, Bool.and_eq_true, decide_eq_true_eq] using hd
      exact goIsSpace_false_of_range (by omega) (by omega)
    · decide
    · decide

/-- On a string of non-whitespace characters of length at least 4, the first
four characters of the grouped-and-trimmed string are the first four of the
input. -/
theorem splitTo4_take4 (v : List Char) (h4 : 4 ≤ v.length)
    (hws : ∀ x ∈ v, goIsSpace x = false) :
    (splitTo4 v).take 4 = v.take 4 := by
  match v, h4 with
  | a :: b :: c :: d :: rest, _ =>
    have ha := hws a (by simp)
    have hb := hws b (by simp)
    have hc' := hws c (by simp)
    have hd' := hws d (by simp)
    have e : splitTo4Aux (a :: b :: c :: d :: rest).length (a :: b :: c :: d :: rest) =
        a :: b :: c :: d :: ' ' :: splitTo4Aux (rest.length + 3) rest := by
      simp only [List.length_cons]
      rw [splitTo4Aux_succ, if_pos (by simp)]
      simp [List.take_succ_cons, List.drop_succ_cons]
    unfold splitTo4 goTrimSpace
    rw [e, trimRight_cons_nonspace _ ha, trimRight_cons_nonspace _ hb,
      trimRight_cons_nonspace _ hc', trimRight_cons_nonspace _ hd',
      trimLeft_cons_nonspace _ ha]
    simp [List.take_succ_cons]

/-! ### C3: which string the record fields are sliced from -/

/-- C3 counterexample: on the valid Spanish fixture, `NewIBAN` succeeds but
the `BBAN` field is sliced from the space-grouped formatted string, so it
keeps the separating spaces and differs from characters 4..end of the
canonical form. -/
theorem c3_counterexample :
    (NewIBAN modelCountryList "ES9121000418450200051332".toList).map
        (fun p => (p.1.CountryCode, p.1.Checksum, p.1.BBAN, p.2)) =
      some ("ES".toList, "91".toList, " 2100 0418 4502 0005 1332".toList, none) ∧
    " 2100 0418 4502 0005 1332".toList ≠
      (normalize "ES9121000418450200051332".toList).drop 4 := by
  decide

/-- C3 amended: on every success of `NewIBAN`, `CountryCode` and `Checksum`
are characters `[0,2)` and `[2,4)` of the canonical form (they agree with
the formatted string there), but `BBAN` is the formatted string from
position 4 onward, spaces included. -/
theorem c3_amended_fields (cl : List ibanCountry) (s : List Char) (r : IBAN)
    (h : NewIBAN cl s = some (r, none)) :
    r.CountryCode = (normalize s).take 2 ∧
    r.Checksum = ((normalize s).drop 2).take 2 ∧
    r.BBAN = r.NumberFormated.drop 4 := by
  obtain ⟨f, b, so, a, hic, hf4, hgb, hr⟩ := newIBAN_ok_inv cl s r h
  obtain ⟨h15, -, hf, cc, ck, bb, hsp, h1, h2, h3⟩ := isCorrectIban_true_inv cl s f none hic
  have hws : ∀ x ∈ normalize s, goIsSpace x = false := normalize_chars_nonspace hsp h3
  obtain ⟨hn4, hcc, hck, hbb⟩ := splitIbanUp_eq_some hsp
  have htake : (splitTo4 (normalize s)).take 4 = (normalize s).take 4 :=
    splitTo4_take4 _ hn4 hws
  subst hr
  subst hf
  refine ⟨?_, ?_, rfl⟩
  · show (splitTo4 (normalize s)).take 2 = (normalize s).take 2
    calc (splitTo4 (normalize s)).take 2
        = ((splitTo4 (normalize s)).take 4).take 2 := by
          simp [List.take_take]
      _ = ((normalize s).take 4).take 2 := by rw [htake]
      _ = (normalize s).take 2 := by simp [List.take_take]
  · show ((splitTo4 (normalize s)).drop 2).take 2 = ((normalize s).drop 2).take 2
    have e : ∀ l : List Char, (l.drop 2).take 2 = (l.take 4).drop 2 := by
      intro l
      rw [List.take_drop]
    rw [e, e, htake]

/-- Witness for the amended C3 at the Spanish fixture. -/
theorem c3_witness :
    ("ES".toList = (normalize "ES9121000418450200051332".toList).take 2) ∧
    ("91".toList = ((normalize "ES9121000418450200051332".toList).drop 2).take 2) ∧
    (" 2100 0418 4502 0005 1332".toList =
      ("ES91 2100 0418 4502 0005 1332".toList : List Char).drop 4) :=
  c3_amended_fields modelCountryList "ES9121000418450200051332".toList
    ⟨"ES9121000418450200051332".toList, "ES91 2100 0418 4502 0005 1332".toList,
      "ES".toList, "91".toList, " 2100 0418 4502 0005 1332".toList,
      "2100".toList, [], []⟩ (by decide)

/-! ### C6: the stored number keeps the input's letter case -/

/-- C6 counterexample: `NewIBAN` accepts a lower-case IBAN (validation
uppercases internally), but stores `removeSpaces(input)` without
uppercasing, so the stored number differs from the whitespace-free
uppercased form the claim describes. -/
theorem c6_counterexample :
    (NewIBAN modelCountryList "es9121000418450200051332".toList).map
        (fun p => (p.1.Number, p.2)) =
      some ("es9121000418450200051332".toList, none) ∧
    "es9121000418450200051332".toList ≠
      goToUpper (removeSpaces "es9121000418450200051332".toList) := by
  decide

/-- C6 amended: on every success of `NewIBAN`, the stored number equals the
input with all spaces removed, original letter case preserved (it is not
uppercased). -/
theorem c6_amended_number (cl : List ibanCountry) (s : List Char) (r : IBAN)
    (h : NewIBAN cl s = some (r, none)) : r.Number = removeSpaces s := by
  obtain ⟨f, b, so, a, hic, hf4, hgb, hr⟩ := newIBAN_ok_inv cl s r h
  rw [hr]

/-- Witness for the amended C6 at the Spanish fixture. -/
theorem c6_witness :
    "ES9121000418450200051332".toList =
      removeSpaces "ES9121000418450200051332".toList :=
  c6_amended_number modelCountryList "ES9121000418450200051332".toList
    ⟨"ES9121000418450200051332".toList, "ES91 2100 0418 4502 0005 1332".toList,
      "ES".toList, "91".toList, " 2100 0418 4502 0005 1332".toList,
      "2100".toList, [], []⟩ (by decide)

/-! ### C8: text marshalling round-trips through full validation -/

theorem removeSpaces_idem (s : List Char) :
    removeSpaces (removeSpaces s) = removeSpaces s := by
  unfold removeSpaces
  rw [List.filter_eq_self]
  intro a ha
  exact (List.mem_filter.mp ha).2

theorem normalize_removeSpaces (s : List Char) :
    normalize (removeSpaces s) = normalize s := by
  unfold normalize
  rw [removeSpaces_idem]

/-- Re-validating the compact number of a successfully parsed record
succeeds and rebuilds the same record, provided every configured country
length is at least 15 (true of the repository's table: real IBAN lengths
range from 15 to 34). -/
theorem newIBAN_removeSpaces (cl : List ibanCountry) (s : List Char) (r : IBAN)
    (hwf : ∀ ent ∈ cl, (15 : Int) ≤ ent.chars)
    (h : NewIBAN cl s = some (r, none)) :
    NewIBAN cl (removeSpaces s) = some (r, none) := by
  obtain ⟨f, b, so, a, hic, hf4, hgb, hr⟩ := newIBAN_ok_inv cl s r h
  obtain ⟨h15, -, hf, cc, ck, bb, hsp, h1, h2, h3⟩ := isCorrectIban_true_inv cl s f none hic
  have hnorm : normalize (removeSpaces s) = normalize s := normalize_removeSpaces s
  have hlen_eq : (normalize s).length = (removeSpaces s).length := by
    unfold normalize goToUpper
    rw [List.length_map]
  have hlen : (15 : Nat) ≤ (removeSpaces s).length := by
    rcases hfind : cl.find? (fun e => e.code = cc) with _ | ent
    · exfalso
      unfold lookupCountry at h1
      rw [hfind] at h1
      exact absurd h1 (by norm_num [zeroCountry])
    · have hmem : ent ∈ cl := List.mem_of_find?_eq_some hfind
      have hent : lookupCountry cl cc = ent := by
        unfold lookupCountry
        rw [hfind]
        rfl
      have hge := hwf ent hmem
      rw [← hent, h2, hlen_eq] at hge
      exact_mod_cast hge
  have run := isCorrectIban_valid_run cl (removeSpaces s) cc ck bb hlen
    (by rw [hnorm]; exact hsp) h1 (by rw [hnorm]; exact h2) h3
  rw [hnorm] at run
  rw [← hf] at run
  unfold NewIBAN
  rw [run]
  try dsimp only
  rw [if_neg (by decide)]
  try dsimp only
  have hsp2 : splitIbanUp f = some (f.take 2, (f.drop 2).take 2, f.drop 4) := by
    unfold splitIbanUp
    rw [if_pos hf4]
  rw [hsp2]
  try dsimp only
  rw [removeSpaces_idem]
  rw [hgb]
  try dsimp only
  rw [hr]

/-- C8: `MarshalText` returns the record's number with a nil error;
`UnmarshalText` succeeds exactly when `NewIBAN` accepts the text, replacing
the receiver with `NewIBAN`'s record and leaving it untouched on failure;
consequently marshalling a record produced by a successful `NewIBAN` and
unmarshalling the bytes reproduces an equal record (assuming, as in the
repository's table, every configured country length is at least 15). -/
theorem c8_text_roundtrip :
    (∀ i : IBAN, MarshalText i = (i.Number, none)) ∧
    (∀ (cl : List ibanCountry) (prev : IBAN) (t : List Char) (r : IBAN),
      (NewIBAN cl t = some (r, none) → UnmarshalText cl prev t = some (r, none)) ∧
      (∀ e, NewIBAN cl t = some (r, some e) → UnmarshalText cl prev t = some (prev, some e))) ∧
    (∀ (cl : List ibanCountry) (prev : IBAN) (s : List Char) (r : IBAN),
      (∀ ent ∈ cl, (15 : Int) ≤ ent.chars) →
      NewIBAN cl s = some (r, none) →
      UnmarshalText cl prev (MarshalText r).1 = some (r, none)) := by
  refine ⟨fun i => rfl, ?_, ?_⟩
  · intro cl prev t r
    constructor
    · intro h
      unfold UnmarshalText
      rw [h]
    · intro e h
      unfold UnmarshalText
      rw [h]
  · intro cl prev s r hwf h
    have hNum : (MarshalText r).1 = removeSpaces s := by
      obtain ⟨f, b, so, a, _, _, _, hr⟩ := newIBAN_ok_inv cl s r h
      rw [hr]
      rfl
    rw [hNum]
    have h2 := newIBAN_removeSpaces cl s r hwf h
    unfold UnmarshalText
    rw [h2]

/-- Witness for C8: round-tripping the Spanish fixture record. -/
theorem c8_witness :
    UnmarshalText modelCountryList zeroIBAN
        (MarshalText ⟨"ES9121000418450200051332".toList,
          "ES91 2100 0418 4502 0005 1332".toList, "ES".toList, "91".toList,
          " 2100 0418 4502 0005 1332".toList, "2100".toList, [], []⟩).1 =
      some (⟨"ES9121000418450200051332".toList,
          "ES91 2100 0418 4502 0005 1332".toList, "ES".toList, "91".toList,
          " 2100 0418 4502 0005 1332".toList, "2100".toList, [], []⟩, none) :=
  c8_text_roundtrip.2.2 modelCountryList zeroIBAN
    "ES9121000418450200051332".toList _ (by decide) (by decide)

end Iban
